import Mathlib

/-!
# Verification of the LLM-Compress blockwise-quantization core

Shallow embedding of `src/llmcompress/algorithm/quantization/
base_blockwise_quantization.py` (class `BaseBlockwiseQuantization`) and proofs
about its equivalent-transform engine (`scale_fc_fc`, `scale_ln_fcs`,
`shift_fc_fc`, `shift_ln_fcs`), its rotation engine (`rotate_pre_layers`,
`rotate_post_layers`), its clip search (`auto_clip_layer`, `apply_clip`), and
its mixed-bit allocator (`alloc_bits`, `set_quant_config`).

Tensors of the working precision are modelled over `ℚ` (exact arithmetic);
where a claim is about IEEE special values (NaN/inf) we use the extended-value
type `EFloat`, and where a claim is about the dtype in which torch executes an
operation we use dtype-tagged tensors (`DVec`/`DMat`).

The file is laid out as definitions first, then the theorems.
-/

set_option maxHeartbeats 1000000

namespace LLMC

/-! ## Definitions: working-precision layers and the scale transform -/

/-- A `torch.nn.Linear` layer: `weight : (out_features, in_features)`,
optional `bias : (out_features)`.  Working-precision values are modelled
exactly over `ℚ`. -/
@[ext]
structure Linear (m n : ℕ) where
  weight : Matrix (Fin m) (Fin n) ℚ
  bias : Option (Fin m → ℚ)

/-- `y = W x + b` (bias treated as `0` when absent), the function computed by
a linear layer. -/
def Linear.forward {m n : ℕ} (l : Linear m n) (x : Fin n → ℚ) : Fin m → ℚ :=
  l.weight.mulVec x + l.bias.getD 0

/-- A normalization layer (`LayerNorm`/`RMSNorm`-like): per-channel `weight`
and optional `bias`. -/
@[ext]
structure LNLayer (n : ℕ) where
  weight : Fin n → ℚ
  bias : Option (Fin n → ℚ)

/-- Embedding of the `else` branch of `scale_fc_fc` (source lines 388-396):
`fc1.out_features == fc2.in_features`; `fc1.bias.div_(scales.view(-1))`,
`fc1.weight.div_(scales.view(-1, 1))` (row-wise divide), and
`fc2.weight.mul_(scales.view(1, -1))` (column-wise multiply). -/
def scale_fc_fc {k m n : ℕ} (fc1 : Linear n k) (fc2 : Linear m n)
    (s : Fin n → ℚ) : Linear n k × Linear m n :=
  ( { weight := Matrix.of fun i j => fc1.weight i j / s i
      bias := fc1.bias.map fun b => fun i => b i / s i },
    { weight := Matrix.of fun i j => fc2.weight i j * s j
      bias := fc2.bias } )

/-- Embedding of `scale_ln_fcs` (source lines 445-456), exact-arithmetic
view (the NaN assertions of lines 458-462 are modelled separately over
`EFloat`, where NaN exists): `ln.weight.div_(scales)`,
`ln.bias.div_(scales)` when present, and for every following layer
`fc.weight.mul_(scales.view(1, -1))`. -/
def scale_ln_fcs {m n : ℕ} (ln : LNLayer n) (fcs : List (Linear m n))
    (s : Fin n → ℚ) : LNLayer n × List (Linear m n) :=
  ( { weight := fun i => ln.weight i / s i
      bias := ln.bias.map fun b => fun i => b i / s i },
    fcs.map fun fc =>
      { weight := Matrix.of fun i j => fc.weight i j * s j
        bias := fc.bias } )

/-- The concrete 4×4 weight `W = diag(1, 2, 3, 4)` of the spec's scenario 1. -/
def Wdiag : Matrix (Fin 4) (Fin 4) ℚ := Matrix.diagonal ![1, 2, 3, 4]

/-- The concrete scale `s = [1, 2, 1, 2]` of the spec's scenario 1. -/
def sDiag : Fin 4 → ℚ := ![1, 2, 1, 2]

/-- The layer `fc1 = fc2 = W` (no bias) of the spec's scenario 1. -/
def fcDiag : Linear 4 4 := ⟨Wdiag, none⟩

/-! ## Definitions: extended values (NaN/inf) and the assertion guards -/

/-- IEEE-754 extended values: a finite value (exact, rounding and overflow of
finite results are not modelled — neither can create NaN or ±inf in the
operations used here), positive/negative infinity, and NaN.  This carrier is
used where a claim is about `torch.isnan` / non-finite values. -/
inductive EFloat where
  | fin : ℚ → EFloat
  | inf : EFloat
  | ninf : EFloat
  | nan : EFloat
deriving DecidableEq

/-- `torch.isnan` on one element. -/
def EFloat.isNaN : EFloat → Bool
  | nan => true
  | _ => false

/-- `torch.isfinite` on one element. -/
def EFloat.isFinite : EFloat → Bool
  | fin _ => true
  | _ => false

/-- IEEE-754 division: `x / 0` is NaN for `x = 0`, `±inf` for finite
nonzero `x`; `inf / inf` is NaN. -/
def EFloat.div : EFloat → EFloat → EFloat
  | nan, _ => nan
  | _, nan => nan
  | fin a, fin b =>
      if b = 0 then (if a = 0 then nan else if 0 < a then inf else ninf)
      else fin (a / b)
  | fin _, inf => fin 0
  | fin _, ninf => fin 0
  | inf, fin b => if 0 ≤ b then inf else ninf
  | ninf, fin b => if 0 ≤ b then ninf else inf
  | inf, inf => nan
  | inf, ninf => nan
  | ninf, inf => nan
  | ninf, ninf => nan

/-- IEEE-754 multiplication: `0 * ±inf` is NaN. -/
def EFloat.mul : EFloat → EFloat → EFloat
  | nan, _ => nan
  | _, nan => nan
  | fin a, fin b => fin (a * b)
  | fin a, inf => if a = 0 then nan else if 0 < a then inf else ninf
  | fin a, ninf => if a = 0 then nan else if 0 < a then ninf else inf
  | inf, fin b => if b = 0 then nan else if 0 < b then inf else ninf
  | ninf, fin b => if b = 0 then nan else if 0 < b then ninf else inf
  | inf, inf => inf
  | inf, ninf => ninf
  | ninf, inf => ninf
  | ninf, ninf => inf

/-- IEEE-754 addition: `inf + (-inf)` is NaN. -/
def EFloat.add : EFloat → EFloat → EFloat
  | nan, _ => nan
  | _, nan => nan
  | fin a, fin b => fin (a + b)
  | fin _, inf => inf
  | fin _, ninf => ninf
  | inf, fin _ => inf
  | ninf, fin _ => ninf
  | inf, inf => inf
  | ninf, ninf => ninf
  | inf, ninf => nan
  | ninf, inf => nan

/-- IEEE-754 negation. -/
def EFloat.neg : EFloat → EFloat
  | fin a => fin (-a)
  | inf => ninf
  | ninf => inf
  | nan => nan

/-- IEEE-754 subtraction. -/
def EFloat.sub (a b : EFloat) : EFloat := a.add b.neg

/-- Number of NaN entries of a tensor — `torch.isnan(p).sum()`. -/
def countNaN (t : List EFloat) : ℕ := (t.filter EFloat.isNaN).length

/-- Number of non-finite entries of a tensor (NaN or ±inf). -/
def countNonFinite (t : List EFloat) : ℕ :=
  (t.filter (fun x => !x.isFinite)).length

/-- `true` iff no entry of the tensor is NaN — `torch.isnan(p).sum() == 0`. -/
def tensorNoNaN (t : List EFloat) : Bool := t.all fun x => !x.isNaN

/-- NaN check on an optional tensor (an absent bias has no parameters). -/
def optNoNaN : Option (List EFloat) → Bool
  | some b => tensorNoNaN b
  | none => true

/-- A linear layer over extended values: weight rows plus optional bias. -/
structure LinearF where
  weight : List (List EFloat)
  bias : Option (List EFloat)
deriving DecidableEq

/-- A normalization layer over extended values. -/
structure LNF where
  weight : List EFloat
  bias : Option (List EFloat)
deriving DecidableEq

/-- `torch.isnan(p).sum() == 0` over all parameters of a normalization
layer (source lines 458-459: `for p in ln.parameters()`). -/
def lnNoNaN (ln : LNF) : Bool := tensorNoNaN ln.weight && optNoNaN ln.bias

/-- `torch.isnan(p).sum() == 0` over all parameters of a linear layer
(source lines 460-462: `for p in fc.parameters()`). -/
def fcNoNaN (fc : LinearF) : Bool := fc.weight.all tensorNoNaN && optNoNaN fc.bias

/-- Embedding of `scale_ln_fcs` (source lines 445-462) over extended
values: `ln.weight.div_(scales)`, `ln.bias.div_(scales)` if present,
`fc.weight.mul_(scales)` column-wise for each following layer, then the
`assert torch.isnan(p).sum() == 0` checks; an `AssertionError` is modelled
as `none`. -/
def scale_ln_fcs_f (ln : LNF) (fcs : List LinearF) (scales : List EFloat) :
    Option (LNF × List LinearF) :=
  let ln' : LNF := ⟨List.zipWith EFloat.div ln.weight scales,
    ln.bias.map fun b => List.zipWith EFloat.div b scales⟩
  let fcs' := fcs.map fun fc =>
    ({ weight := fc.weight.map fun row => List.zipWith EFloat.mul row scales,
       bias := fc.bias } : LinearF)
  if lnNoNaN ln' && fcs'.all fcNoNaN then some (ln', fcs') else none

/-- `(w * x).sum()` for one weight row (one row of `fc.weight @ shifts`). -/
def dotF (r x : List EFloat) : EFloat :=
  (List.zipWith EFloat.mul r x).foldl EFloat.add (EFloat.fin 0)

/-- `fc.weight @ shifts` over extended values. -/
def matvecF (w : List (List EFloat)) (x : List EFloat) : List EFloat :=
  w.map fun r => dotF r x

/-- Embedding of `shift_ln_fcs` (source lines 424-443) over extended
values: `ln.bias.sub_(shifts)` when the model has biases,
`fc.bias.add_(fc.weight @ shifts)` (or a fresh bias `fc.weight @ shifts`
when `use_shift` is set and the layer has none), then the
`assert torch.isnan(p).sum() == 0` checks, `AssertionError` as `none`. -/
def shift_ln_fcs_f (hasBias useShift : Bool) (ln : LNF) (fcs : List LinearF)
    (shifts : List EFloat) : Option (LNF × List LinearF) :=
  let ln' : LNF := if hasBias then
      ⟨ln.weight, ln.bias.map fun b => List.zipWith EFloat.sub b shifts⟩
    else ln
  let fcs' := fcs.map fun fc =>
    if hasBias then
      ({ weight := fc.weight,
         bias := fc.bias.map fun b =>
           List.zipWith EFloat.add b (matvecF fc.weight shifts) } : LinearF)
    else if useShift then
      ({ weight := fc.weight, bias := some (matvecF fc.weight shifts) } : LinearF)
    else fc
  if lnNoNaN ln' && fcs'.all fcNoNaN then some (ln', fcs') else none

/-! ## Definitions: rotation engine -/

/-- Embedding of `rotate_pre_layers` (source lines 726-731): for each target
layer, `weight ← weight · Q`.  The source performs the matmul after casting
to `torch.float64` and casts the result back to the working dtype; the
values of that double-precision computation are modelled exactly. -/
def rotate_pre_layers {m n : ℕ} (ls : List (Linear m n))
    (Q : Matrix (Fin n) (Fin n) ℚ) : List (Linear m n) :=
  ls.map fun l => { weight := l.weight * Q, bias := l.bias }

/-- Embedding of `rotate_post_layers` (source lines 733-745) without the
`exact_had` branch: `weight ← Qᵀ · weight` and, when a bias is present,
`bias ← Qᵀ · bias`; again computed in `float64` and cast back, modelled
exactly. -/
def rotate_post_layers {n k : ℕ} (ls : List (Linear n k))
    (Q : Matrix (Fin n) (Fin n) ℚ) : List (Linear n k) :=
  ls.map fun l =>
    { weight := Q.transpose * l.weight
      bias := l.bias.map fun b => Q.transpose.mulVec b }

/-- The 90°-rotation matrix, an orthogonal `Q` for concrete rotation
scenarios. -/
def Qrot : Matrix (Fin 2) (Fin 2) ℚ := !![0, 1; -1, 0]

/-- A concrete non-symmetric weight used to separate `QᵀWQ` from `W`. -/
def Wrot : Matrix (Fin 2) (Fin 2) ℚ := !![1, 0; 0, 2]

/-! ## Definitions: clip-search grid update and output-channel batching -/

/-- The running best for one (output-channel, group) element of
`auto_clip_layer`: `min_errs`, `best_max_val`, `best_min_val` (source lines
620-622); the grid update is element-wise, so one element suffices. -/
structure ClipState where
  minErr : ℚ
  bestMax : ℚ
  bestMin : ℚ
deriving DecidableEq

/-- Candidate upper bound at shrink level `i_s`:
`max_val = org_max * (1 - i_s / n_grid)` (source line 651). -/
def maxValAt (orgMax : ℚ) (nGrid iS : ℕ) : ℚ :=
  orgMax * (1 - (iS : ℚ) / (nGrid : ℚ))

/-- Candidate lower bound: `-max_val` under `clip_sym`, else
`org_min * (1 - i_s / n_grid)` (source lines 653-656). -/
def minValAt (clipSym : Bool) (orgMax orgMin : ℚ) (nGrid iS : ℕ) : ℚ :=
  if clipSym then -(maxValAt orgMax nGrid iS)
  else orgMin * (1 - (iS : ℚ) / (nGrid : ℚ))

/-- One grid step of `auto_clip_layer` for one element (source lines
707-712): `cur_best_idx = err_mean < min_errs`, then `min_errs`,
`best_max_val`, `best_min_val` are overwritten at the strictly-improving
positions only.  The error `err_mean` at level `i_s` is a deterministic
function of the level (weights and inputs are fixed across the grid), here
abstracted as `errAt i_s`. -/
def clipGridStep (clipSym : Bool) (orgMax orgMin : ℚ) (nGrid : ℕ)
    (errAt : ℕ → ℚ) (st : ClipState) (iS : ℕ) : ClipState :=
  if errAt iS < st.minErr then
    ⟨errAt iS, maxValAt orgMax nGrid iS, minValAt clipSym orgMax orgMin nGrid iS⟩
  else st

/-- The `auto_clip_layer` grid search for one element after the first
`steps` shrink levels: fold of `clipGridStep` over `i_s = 0, 1, …` from
the initial state `min_errs = 1e9`, best bounds = the unshrunk extrema
(source lines 620-624). -/
def autoClipSearch (clipSym : Bool) (orgMax orgMin : ℚ) (nGrid : ℕ)
    (errAt : ℕ → ℚ) (steps : ℕ) : ClipState :=
  (List.range steps).foldl (clipGridStep clipSym orgMax orgMin nGrid errAt)
    ⟨10 ^ 9, orgMax, orgMin⟩

/-- `oc_batch_size = 256 if w.shape[0] % 256 == 0 else 64` (source line
603). -/
def ocBatchSize (n : ℕ) : ℕ := if n % 256 = 0 then 256 else 64

/-- The output-channel batches of `auto_clip_layer` (source lines 603-611):
batch `i_b` covers channels `i_b*bs, …, (i_b+1)*bs - 1`; the
`assert w.shape[0] % oc_batch_size == 0` (line 604) is modelled as `none`
(an `AssertionError`). -/
def autoClipBatches (n : ℕ) : Option (List (List ℕ)) :=
  if n % ocBatchSize n = 0 then
    some ((List.range (n / ocBatchSize n)).map fun i =>
      List.range' (i * ocBatchSize n) (ocBatchSize n))
  else none

/-! ## Definitions: the fused-QKV branch of `scale_fc_fc`

The source (lines 369-387) transposes `fc1.weight` to `(in, 3d)`
(`d = fc2.in_features`), reshapes row-major to `(in·H, 3, d/H)`
(`H = num_heads`), divides the `[:, 2, :]` slice (the per-head V slot) by
`scales`, and reshapes/transposes back; the bias `(3d,)` is reshaped to
`(H, 3, d/H)` and treated the same.  Under row-major index arithmetic,
output channel `c` decomposes as head `h = c / (3(d/H))`, slot
`j = (c % (3(d/H))) / (d/H)` (0 = Q, 1 = K, 2 = V) and within-head column
`k = (c % (3(d/H))) % (d/H)`, and the scale index of a V channel is
`m = h·(d/H) + k`.  We embed both the index-level map and a literal
list-level implementation of the transpose/reshape steps, and prove them
equal on the spec's concrete scenario. -/

/-- The Q/K/V slot (0/1/2) of output channel `c`. -/
def qkvSlot (d H c : ℕ) : ℕ := (c % (3 * (d / H))) / (d / H)

/-- The scale index `m = h·(d/H) + k` of output channel `c`. -/
def qkvScaleIdx (d H c : ℕ) : ℕ :=
  (c / (3 * (d / H))) * (d / H) + (c % (3 * (d / H))) % (d / H)

/-- Index-level model of the QKV-branch weight update (source lines
369-378): entry `(c, r)` of `fc1.weight` is divided by `scales[m]` iff
channel `c` lies in the V slot. -/
def scale_fc_fc_qkv_ix (d H : ℕ) (W : ℕ → ℕ → ℚ) (s : ℕ → ℚ) : ℕ → ℕ → ℚ :=
  fun c r => if qkvSlot d H c = 2 then W c r / s (qkvScaleIdx d H c) else W c r

/-- Index-level model of the QKV-branch bias update (source lines
379-387). -/
def scale_fc_fc_qkv_bias_ix (d H : ℕ) (b : ℕ → ℚ) (s : ℕ → ℚ) : ℕ → ℚ :=
  fun c => if qkvSlot d H c = 2 then b c / s (qkvScaleIdx d H c) else b c

/-- Literal list-level implementation of the QKV-branch weight update,
step for step after the source: `t_()`; `reshape(in·H, 3, d/H)` (row-major:
chunks of `3(d/H)`, then chunks of `d/H`); slice `[:, 2, :]`; reshape to
`(in, d)`; divide by `scales` (column-broadcast); write the result back
into slot 2; `reshape(org_shape)`; `t_()`. -/
def scale_fc_fc_qkv_w (d H : ℕ) (W : List (List ℚ)) (s : List ℚ) :
    List (List ℚ) :=
  let ds := d / H
  let Wt := W.transpose
  let T := ((Wt.flatten).toChunks (3 * ds)).map fun a => a.toChunks ds
  let value := ((T.map fun a => a.getD 2 []).flatten).toChunks d
  let divided := value.map fun row => List.zipWith (· / ·) row s
  let back := (divided.flatten).toChunks ds
  let T2 := List.zipWith (fun a r => a.set 2 r) T back
  (((T2.map List.flatten).flatten).toChunks (3 * d)).transpose

/-- The spec's scenario-2 fused-QKV weight: 12 output rows, 2 input
columns, entry `(c, r) = 10c + r`. -/
def Wqkv : List (List ℚ) :=
  [[0, 1], [10, 11], [20, 21], [30, 31], [40, 41], [50, 51],
   [60, 61], [70, 71], [80, 81], [90, 91], [100, 101], [110, 111]]

/-- The spec's scenario-2 scale vector (length 4 = following layer's input
width). -/
def sQkv : List ℚ := [2, 3, 5, 7]

/-- `Wqkv` read as an index function. -/
def WqkvFun : ℕ → ℕ → ℚ := fun c r => (Wqkv.getD c []).getD r 0

/-- `sQkv` read as an index function. -/
def sQkvFun : ℕ → ℚ := fun m => sQkv.getD m 0

/-- Tabulate an index function as a rows × cols list of lists. -/
def listsOfFun (f : ℕ → ℕ → ℚ) (rows cols : ℕ) : List (List ℚ) :=
  (List.range rows).map fun c => (List.range cols).map fun r => f c r

/-! ## Definitions: mixed-bit allocator and configuration validation -/

/-- Python's `str.split(sep)` for a one-character separator, over the
character list. -/
def splitOnChar (c : Char) : List Char → List (List Char)
  | [] => [[]]
  | x :: xs =>
      let r := splitOnChar c xs
      if x = c then [] :: r
      else
        match r with
        | [] => [[x]]
        | h :: t => (x :: h) :: t

/-- `int(tok)` on a token expected to be a block index; `none` models the
`ValueError` on a non-digit token (Python's tolerance for signs and
whitespace plays no role in the claims). -/
def parseNat? (l : List Char) : Option ℕ :=
  if l = [] then none
  else
    l.foldlM
      (fun acc ch =>
        if ch.isDigit then some (acc * 10 + (ch.toNat - 48)) else none)
      0

/-- Parse one mix-bits layer selector (source lines 124-134):
`name.split('#')` must have one part (bare name, covering all blocks,
returned as index list `none`) or two parts (`name#i-j-k`, covering the
listed blocks); three or more parts fail the
`assert len(n_layeridx) == 1 or len(n_layeridx) == 2`, modelled `none`. -/
def parseSelector (sel : String) : Option (List Char × Option (List ℕ)) :=
  match splitOnChar '#' sel.data with
  | [n] => some (n, none)
  | [n, idxs] =>
      ((splitOnChar '-' idxs).mapM parseNat?).map fun l => (n, some l)
  | _ => none

/-- `self.mix_bits_map` as a lookup: block index × layer name ↦ index of
the overriding entry of `quantizer_mix_bits` (`none` = fall back to the
default quantizer). -/
def MixMap : Type := ℕ → List Char → Option ℕ

/-- Writing one parsed selector of setting `i` into the map: a bare name
assigns `mix_bits_map[k][n] = i` for every block `k < num_blocks`, an
indexed selector for the listed blocks only (source lines 135-140). -/
def applySelector (numBlocks i : ℕ) (sel : List Char × Option (List ℕ))
    (m : MixMap) : MixMap :=
  match sel.2 with
  | none => fun k n => if n = sel.1 ∧ k < numBlocks then some i else m k n
  | some idxs => fun k n => if n = sel.1 ∧ k ∈ idxs then some i else m k n

/-- Processing the `layer_name` selector list of one setting, in order. -/
def applySetting (numBlocks i : ℕ) (names : List String) (m : MixMap) :
    Option MixMap :=
  names.foldlM
    (fun acc nm => (parseSelector nm).map fun sel =>
      applySelector numBlocks i sel acc)
    m

/-- Embedding of the map-building loop of `alloc_bits` (source lines
120-140): settings are processed in index order, each assignment
overwriting the previous value of its `(block, layer)` key, so a later
setting wins; a malformed selector is an `assert` failure (`none`).  The
initial map is empty (every key falls back to the default quantizer). -/
def alloc_bits_map (numBlocks : ℕ) (settings : List (List String)) :
    Option MixMap :=
  (settings.enum).foldlM
    (fun acc p => applySetting numBlocks p.1 p.2 acc)
    (fun _ _ => none)

/-- Look up `(block k, layer n)` in the built map. -/
def mixLookup (o : Option MixMap) (k : ℕ) (n : String) : Option (Option ℕ) :=
  o.map fun m => m k n.data

/-- The configuration fields of `set_quant_config` that its validation
reads. -/
structure QuantConfigModel where
  mixBitsSettings : Option (List (List String))
  clipVersion : String
  calibAlgo : String

/-- Embedding of the validation `set_quant_config` performs (source lines
142-209; it runs from `__init__`, before any block is processed): when
`mix_bits` is configured, building the map runs the selector asserts
(lines 124-127), and `clip_version == 'v2'` asserts
`calib_algo == 'learnable'` (lines 196-197).  No other clip-version check
happens at configuration time. -/
def set_quant_config_check (numBlocks : ℕ) (cfg : QuantConfigModel) :
    Option Unit :=
  (match cfg.mixBitsSettings with
    | some settings => (alloc_bits_map numBlocks settings).map fun _ => ()
    | none => some ()).bind fun _ =>
    if cfg.clipVersion = "v2" then
      (if cfg.calibAlgo = "learnable" then some () else none)
    else some ()

/-- The clip-version dispatch of `apply_clip` (source lines 506-539, which
runs per block during `auto_clip`): `v1` clamps, `v2` stores logit
factors, anything else raises `Exception('Not support other clip
version')`. -/
def apply_clip_version_check (v : String) : Option Unit :=
  if v = "v1" then some () else if v = "v2" then some () else none

/-! ## Definitions: dtype-tagged tensors for the shift numerical policy -/

/-- Torch floating dtypes: a 16-bit working precision and the wider
floats. -/
inductive DType where
  | f16 : DType
  | f32 : DType
  | f64 : DType
deriving DecidableEq

/-- Bit width, inducing the precision order. -/
def DType.width : DType → ℕ
  | f16 => 16
  | f32 => 32
  | f64 => 64

/-- `a` is at most as precise as `b`. -/
def DType.le (a b : DType) : Prop := a.width ≤ b.width

instance decDTypeLe (a b : DType) : Decidable (a.le b) :=
  inferInstanceAs (Decidable (a.width ≤ b.width))

/-- Torch type promotion between floating dtypes: the wider operand
wins. -/
def DType.promote (a b : DType) : DType := if a.width ≤ b.width then b else a

/-- A dtype-tagged vector: the dtype torch stores alongside the values
(values exact). -/
structure DVec where
  dtype : DType
  vals : List ℚ

/-- A dtype-tagged matrix. -/
structure DMat where
  dtype : DType
  rows : List (List ℚ)

/-- `w @ t`: torch executes a matmul in the promoted dtype of its two
operands; no upcast happens unless an operand was cast beforehand (the
source lines 417, 421, 433 and 437 contain no `.double()`/`.to(float64)`
cast, unlike `fuse_ln_fcs` and the rotation functions). -/
def dmatvec (w : DMat) (t : DVec) : DVec :=
  ⟨w.dtype.promote t.dtype, w.rows.map fun r => (List.zipWith (· * ·) r t.vals).sum⟩

/-- In-place `self.add_(x)`: the result keeps `self`'s dtype. -/
def dadd_ (self x : DVec) : DVec :=
  ⟨self.dtype, List.zipWith (· + ·) self.vals x.vals⟩

/-- In-place `self.sub_(x)`. -/
def dsub_ (self x : DVec) : DVec :=
  ⟨self.dtype, List.zipWith (· - ·) self.vals x.vals⟩

/-- A dtype-tagged linear layer. -/
structure DLinear where
  weight : DMat
  bias : Option DVec

/-- The fan-out bias fold of the shift transform:
`fc2.bias.add_(fc2.weight @ shifts)` when a bias exists (source lines
416-417 of `shift_fc_fc`, 432-433 of `shift_ln_fcs`), else the bias
`fc.weight @ shifts` materialized under `use_shift` (lines 418-421,
434-437). -/
def shift_bias_fold (useShift : Bool) (fc : DLinear) (shifts : DVec) :
    DLinear :=
  match fc.bias with
  | some b => { fc with bias := some (dadd_ b (dmatvec fc.weight shifts)) }
  | none =>
      if useShift then { fc with bias := some (dmatvec fc.weight shifts) }
      else fc

/-- Embedding of the `else` branch of `shift_fc_fc` (source lines 410-421),
dtype view: `fc1.bias.sub_(shifts)` then the fan-out fold on `fc2`. -/
def shift_fc_fc_d (useShift : Bool) (fc1 fc2 : DLinear) (shifts : DVec) :
    DLinear × DLinear :=
  ({ fc1 with bias := fc1.bias.map fun b => dsub_ b shifts },
   shift_bias_fold useShift fc2 shifts)

/-- Embedding of `shift_ln_fcs` (source lines 424-437), dtype view:
`ln.bias.sub_(shifts)` when the model has biases, then the fan-out fold on
every following layer (a layer's fold branches on its bias exactly as in
`shift_bias_fold`; the NaN asserts are modelled over `EFloat`). -/
def shift_ln_fcs_d (hasBias useShift : Bool) (lnBias : Option DVec)
    (fcs : List DLinear) (shifts : DVec) : Option DVec × List DLinear :=
  ((if hasBias then lnBias.map fun b => dsub_ b shifts else lnBias),
   fcs.map fun fc => shift_bias_fold useShift fc shifts)

/-! ## Theorems -/

/-- The first component of `scale_fc_fc` computes the function
`x ↦ (fc1 x) / s` (row `i` of the output divided by `s i`). -/
theorem scale_fc_fc_fst_forward {k n m : ℕ} (fc1 : Linear n k) (fc2 : Linear m n)
    (s : Fin n → ℚ) (x : Fin k → ℚ) :
    (scale_fc_fc fc1 fc2 s).1.forward x = fun i => fc1.forward x i / s i := by
  funext i
  cases hb : fc1.bias with
  | none =>
      simp [Linear.forward, scale_fc_fc, hb, Matrix.mulVec, Matrix.dotProduct,
        div_mul_eq_mul_div, ← Finset.sum_div]
  | some b =>
      simp [Linear.forward, scale_fc_fc, hb, Matrix.mulVec, Matrix.dotProduct,
        div_mul_eq_mul_div, ← Finset.sum_div, add_div]

/-- The second component of `scale_fc_fc` undoes a per-channel division of
its input: composing it with `x ↦ x / s` gives back `fc2`'s function. -/
theorem scale_fc_fc_snd_forward {n m k : ℕ} (fc1 : Linear n k) (fc2 : Linear m n)
    (s : Fin n → ℚ) (hs : ∀ i, s i ≠ 0) (y : Fin n → ℚ) :
    (scale_fc_fc fc1 fc2 s).2.forward (fun j => y j / s j) = fc2.forward y := by
  funext i
  have hsum : ∀ j : Fin n, fc2.weight i j * s j * (y j / s j) = fc2.weight i j * y j := by
    intro j
    rw [mul_assoc, mul_div_cancel₀ _ (hs j)]
  simp only [Linear.forward, scale_fc_fc, Matrix.mulVec, Matrix.dotProduct, Matrix.of_apply,
    Pi.add_apply]
  rw [Finset.sum_congr rfl fun j _ => hsum j]

/-- C1: for a linear preceding op `fc1` and a single following layer `fc2`
with `fc1.out_features == fc2.in_features` and positive per-channel scales
`s`, `scale_fc_fc` divides `fc1`'s weight rows (and bias) element-wise by
`s` and multiplies `fc2`'s weight columns by `s`, leaving the composed
function `fc2 ∘ fc1` unchanged; concretely, with `W = diag(1,2,3,4)`,
`s = [1,2,1,2]` and `fc1 = fc2 = W`, the composed output for input
`[1,1,1,1]` equals the pre-transform output (exactly, hence within any
tolerance). -/
theorem scale_fc_fc_preserves_composition {k m n : ℕ} (fc1 : Linear n k)
    (fc2 : Linear m n) (s : Fin n → ℚ) (hs : ∀ i, 0 < s i) :
    (∀ x : Fin k → ℚ,
        (scale_fc_fc fc1 fc2 s).2.forward ((scale_fc_fc fc1 fc2 s).1.forward x)
          = fc2.forward (fc1.forward x))
    ∧ (scale_fc_fc fcDiag fcDiag sDiag).1.weight
        = !![1, 0, 0, 0; 0, 1, 0, 0; 0, 0, 3, 0; 0, 0, 0, 2]
    ∧ (scale_fc_fc fcDiag fcDiag sDiag).2.weight
        = !![1, 0, 0, 0; 0, 4, 0, 0; 0, 0, 3, 0; 0, 0, 0, 8]
    ∧ (scale_fc_fc fcDiag fcDiag sDiag).2.forward
        ((scale_fc_fc fcDiag fcDiag sDiag).1.forward ![1, 1, 1, 1])
        = fcDiag.forward (fcDiag.forward ![1, 1, 1, 1]) := by
  refine ⟨fun x => ?_, ?_, ?_, ?_⟩
  · rw [scale_fc_fc_fst_forward]
    exact scale_fc_fc_snd_forward fc1 fc2 s (fun i => ne_of_gt (hs i)) _
  · ext i j
    fin_cases i <;> fin_cases j <;>
      norm_num [scale_fc_fc, fcDiag, Wdiag, sDiag, Matrix.diagonal, Fin.ext_iff]
  · ext i j
    fin_cases i <;> fin_cases j <;>
      norm_num [scale_fc_fc, fcDiag, Wdiag, sDiag, Matrix.diagonal, Fin.ext_iff]
  · rw [scale_fc_fc_fst_forward]
    exact scale_fc_fc_snd_forward fcDiag fcDiag sDiag
      (fun i => by fin_cases i <;> norm_num [sDiag]) _

/-- Witness for `scale_fc_fc_preserves_composition` at the spec's concrete
scenario 1. -/
theorem scale_fc_fc_preserves_composition_witness :
    (∀ i, 0 < sDiag i)
    ∧ (scale_fc_fc fcDiag fcDiag sDiag).2.forward
        ((scale_fc_fc fcDiag fcDiag sDiag).1.forward ![1, 1, 1, 1])
        = fcDiag.forward (fcDiag.forward ![1, 1, 1, 1]) :=
  ⟨by decide,
    (scale_fc_fc_preserves_composition fcDiag fcDiag sDiag (by decide)).1 ![1, 1, 1, 1]⟩

/-- C2: applying the scale transform with a positive `s` and then again with
`1/s` reproduces the original weights (and biases) of every touched layer
exactly — hence, a fortiori, within floating-point tolerance — for both
supported pairs: linear–linear with equal feature dimensions
(`scale_fc_fc`) and normalization–linear (`scale_ln_fcs`). -/
theorem scale_roundtrip {k m n : ℕ} (fc1 : Linear n k) (fc2 : Linear m n)
    (ln : LNLayer n) (fcs : List (Linear m n)) (s : Fin n → ℚ)
    (hs : ∀ i, 0 < s i) :
    scale_fc_fc (scale_fc_fc fc1 fc2 s).1 (scale_fc_fc fc1 fc2 s).2
        (fun i => 1 / s i) = (fc1, fc2)
    ∧ scale_ln_fcs (scale_ln_fcs ln fcs s).1 (scale_ln_fcs ln fcs s).2
        (fun i => 1 / s i) = (ln, fcs) := by
  have hne : ∀ i, s i ≠ 0 := fun i => ne_of_gt (hs i)
  have hdiv : ∀ (w : ℚ) (i : Fin n), w / s i / (1 / s i) = w := by
    intro w i
    rw [one_div, div_inv_eq_mul, div_mul_cancel₀ _ (hne i)]
  have hmul : ∀ (w : ℚ) (i : Fin n), w * s i * (1 / s i) = w := by
    intro w i
    rw [one_div, mul_assoc, mul_inv_cancel₀ (hne i), mul_one]
  constructor
  · refine Prod.ext (Linear.ext ?_ ?_) (Linear.ext ?_ ?_)
    · funext i j
      exact hdiv _ i
    · cases hb : fc1.bias with
      | none => simp [scale_fc_fc, hb]
      | some b =>
          simp only [scale_fc_fc, Option.map_map, hb, Option.map_some']
          congr 1
          funext i
          exact hdiv _ i
    · funext i j
      exact hmul _ j
    · rfl
  · refine Prod.ext (LNLayer.ext ?_ ?_) ?_
    · funext i
      exact hdiv _ i
    · cases hb : ln.bias with
      | none => simp [scale_ln_fcs, hb]
      | some b =>
          simp only [scale_ln_fcs, Option.map_map, hb, Option.map_some']
          congr 1
          funext i
          exact hdiv _ i
    · show (fcs.map _).map _ = fcs
      rw [List.map_map]
      induction fcs with
      | nil => rfl
      | cons fc t ih =>
          simp only [List.map_cons, ih]
          congr 1
          refine Linear.ext ?_ rfl
          funext i j
          exact hmul _ j

/-- Witness for `scale_roundtrip` at concrete layers and `s = [1,2,1,2]`. -/
theorem scale_roundtrip_witness :
    (∀ i, 0 < sDiag i)
    ∧ scale_fc_fc (scale_fc_fc fcDiag fcDiag sDiag).1
        (scale_fc_fc fcDiag fcDiag sDiag).2 (fun i => 1 / sDiag i)
        = (fcDiag, fcDiag) :=
  ⟨by decide,
    (scale_roundtrip fcDiag fcDiag ⟨sDiag, none⟩ [fcDiag] sDiag (by decide)).1⟩

/-- A guarded update `if c then some x else none` succeeds only with the
guard true and the guarded value. -/
theorem guard_some {α : Type} (c : Bool) (x out : α)
    (h : (if c then some x else none) = some out) : c = true ∧ out = x := by
  cases c with
  | false => simp at h
  | true =>
      simp only [if_true, Option.some.injEq] at h
      exact ⟨rfl, h.symm⟩

/-- `List.zipWith` read at one index. -/
theorem get?_zipWith' {α β γ : Type} (f : α → β → γ) (as : List α) (bs : List β)
    (i : ℕ) :
    (List.zipWith f as bs).get? i
      = (as.get? i).bind fun a => (bs.get? i).map fun b => f a b := by
  induction as generalizing bs i with
  | nil => simp
  | cons a t ih =>
      cases bs with
      | nil => simp
      | cons b u =>
          cases i with
          | zero => simp
          | succ j => simpa using ih u j

/-- C5 (amended): `rotate_pre_layers` computes `weight ← weight · Q` and
`rotate_post_layers` computes `weight ← Qᵀ · weight` (and `bias ← Qᵀ · bias`
when present), the double-precision computation modelled exactly; for
orthogonal `Q`, `rotate_pre` with `Q` followed by `rotate_pre` with `Qᵀ`
reproduces the original layers exactly, and likewise `rotate_post` with `Q`
followed by `rotate_post` with `Qᵀ` (weights and biases).  (`rotate_post`
directly after `rotate_pre` with the *same* `Q` yields `Qᵀ·W·Q`, which is
not `W` in general: see the counterexample.) -/
theorem rotate_layers_formulas_roundtrip {m n k : ℕ} (pre : List (Linear m n))
    (post : List (Linear n k)) (Q : Matrix (Fin n) (Fin n) ℚ)
    (hQ : Q.transpose * Q = 1) :
    ((rotate_pre_layers pre Q).map Linear.weight
        = pre.map fun l => l.weight * Q)
    ∧ ((rotate_post_layers post Q).map Linear.weight
        = post.map fun l => Q.transpose * l.weight)
    ∧ ((rotate_post_layers post Q).map Linear.bias
        = post.map fun l => l.bias.map fun b => Q.transpose.mulVec b)
    ∧ rotate_pre_layers (rotate_pre_layers pre Q) Q.transpose = pre
    ∧ rotate_post_layers (rotate_post_layers post Q) Q.transpose = post := by
  have hQQt : Q * Q.transpose = 1 := Matrix.mul_eq_one_comm.mp hQ
  refine ⟨?_, ?_, ?_, ?_, ?_⟩
  · simp [rotate_pre_layers]
  · simp [rotate_post_layers]
  · simp [rotate_post_layers]
  · simp only [rotate_pre_layers, List.map_map]
    have : ∀ l : Linear m n,
        (⟨l.weight * Q * Q.transpose, l.bias⟩ : Linear m n) = l := by
      intro l
      refine Linear.ext ?_ rfl
      rw [Matrix.mul_assoc, hQQt, Matrix.mul_one]
    induction pre with
    | nil => rfl
    | cons l t ih => simp only [List.map_cons, ih]; rw [Function.comp_apply, this]
  · simp only [rotate_post_layers, List.map_map]
    have : ∀ l : Linear n k,
        (⟨Q.transpose.transpose * (Q.transpose * l.weight),
            (l.bias.map fun b => Q.transpose.mulVec b).map
              fun b => Q.transpose.transpose.mulVec b⟩ : Linear n k) = l := by
      intro l
      refine Linear.ext ?_ ?_
      · rw [Matrix.transpose_transpose, ← Matrix.mul_assoc, hQQt, Matrix.one_mul]
      · cases hb : l.bias with
        | none => simp
        | some b =>
            simp only [Option.map_some']
            congr 1
            rw [Matrix.transpose_transpose, Matrix.mulVec_mulVec, hQQt,
              Matrix.one_mulVec]
    induction post with
    | nil => rfl
    | cons l t ih => simp only [List.map_cons, ih]; rw [Function.comp_apply, this]

/-- The transpose of the concrete rotation, computed once. -/
theorem Qrot_transpose : Qrot.transpose = !![0, -1; 1, 0] := by
  ext i j
  fin_cases i <;> fin_cases j <;> rfl

/-- The concrete rotation is orthogonal: `Qᵀ·Q = 1`. -/
theorem Qrot_orthogonal : Qrot.transpose * Qrot = 1 := by
  rw [Qrot_transpose]
  ext i j
  fin_cases i <;> fin_cases j <;>
    norm_num [Qrot, Matrix.mul_apply, Fin.sum_univ_two, Matrix.one_apply,
      Fin.ext_iff]

/-- Witness for `rotate_layers_formulas_roundtrip` with the concrete
orthogonal rotation `Qrot`. -/
theorem rotate_layers_formulas_roundtrip_witness :
    Qrot.transpose * Qrot = 1
    ∧ rotate_pre_layers (rotate_pre_layers [⟨Wrot, none⟩] Qrot) Qrot.transpose
        = [⟨Wrot, none⟩] :=
  ⟨Qrot_orthogonal,
    (rotate_layers_formulas_roundtrip [⟨Wrot, none⟩] ([] : List (Linear 2 2)) Qrot
      Qrot_orthogonal).2.2.2.1⟩

/-- C5 counterexample: with the orthogonal `Q = [[0,1],[-1,0]]` and weight
`W = diag(1,2)`, `rotate_pre(layers, Q)` followed by `rotate_post(layers, Q)`
gives `QᵀWQ = diag(2,1) ≠ W` — the claimed pre-then-post round trip with
the same `Q` does not reproduce the original weights. -/
theorem rotate_pre_post_counterexample :
    Qrot.transpose * Qrot = 1
    ∧ (rotate_post_layers (rotate_pre_layers [⟨Wrot, none⟩] Qrot) Qrot).map
        Linear.weight ≠ [Wrot] := by
  constructor
  · exact Qrot_orthogonal
  · intro h
    simp only [rotate_pre_layers, rotate_post_layers, List.map_cons, List.map_nil,
      List.cons.injEq, and_true] at h
    rw [Qrot_transpose] at h
    have h00 := congrFun (congrFun h 0) 0
    norm_num [Qrot, Wrot, Matrix.mul_apply, Fin.sum_univ_two] at h00

/-- C3 (amended): after the `scale_ln_fcs` / `shift_ln_fcs` fusions, every
touched layer is asserted to contain no NaN entries — when the call returns
(rather than raising `AssertionError`), every parameter of the
normalization layer and of every following layer is NaN-free — and a scale
vector with a zero entry dividing a zero weight entry produces NaN and does
raise.  (The check is `torch.isnan`, not finiteness: see the
counterexample, where a zero divisor under a nonzero dividend leaves `inf`
silently.) -/
theorem ln_fcs_nan_guard (ln : LNF) (fcs : List LinearF) (v : List EFloat) :
    (∀ out, scale_ln_fcs_f ln fcs v = some out →
        lnNoNaN out.1 = true ∧ out.2.all fcNoNaN = true)
    ∧ (∀ hasBias useShift out, shift_ln_fcs_f hasBias useShift ln fcs v = some out →
        lnNoNaN out.1 = true ∧ out.2.all fcNoNaN = true)
    ∧ (∀ i, ln.weight.get? i = some (EFloat.fin 0) →
        v.get? i = some (EFloat.fin 0) → scale_ln_fcs_f ln fcs v = none) := by
  refine ⟨?_, ?_, ?_⟩
  · intro out h
    simp only [scale_ln_fcs_f] at h
    obtain ⟨hc, rfl⟩ := guard_some _ _ _ h
    rw [Bool.and_eq_true] at hc
    exact ⟨hc.1, hc.2⟩
  · intro hasBias useShift out h
    simp only [shift_ln_fcs_f] at h
    obtain ⟨hc, rfl⟩ := guard_some _ _ _ h
    rw [Bool.and_eq_true] at hc
    exact ⟨hc.1, hc.2⟩
  · intro i hw hv
    have hnan : (List.zipWith EFloat.div ln.weight v).get? i = some EFloat.nan := by
      rw [get?_zipWith', hw, hv]
      simp [EFloat.div]
    have hmem : EFloat.nan ∈ List.zipWith EFloat.div ln.weight v :=
      List.get?_mem hnan
    have hfalse : tensorNoNaN (List.zipWith EFloat.div ln.weight v) = false := by
      rw [Bool.eq_false_iff]
      intro hall
      have := List.all_eq_true.mp hall _ hmem
      simp [EFloat.isNaN] at this
    simp only [scale_ln_fcs_f]
    rw [if_neg]
    intro hc
    rw [Bool.and_eq_true] at hc
    have h1 := hc.1
    rw [lnNoNaN, Bool.and_eq_true] at h1
    rw [hfalse] at h1
    exact Bool.false_ne_true h1.1

/-- Witness for `ln_fcs_nan_guard`: a successful fusion (scale by `[1]`)
whose outputs are NaN-free, and a zero scale over a zero weight that
raises. -/
theorem ln_fcs_nan_guard_witness :
    (lnNoNaN ⟨[EFloat.inf], none⟩ = true
      ∧ List.all [({ weight := [[EFloat.inf]], bias := none } : LinearF)] fcNoNaN = true)
    ∧ scale_ln_fcs_f ⟨[EFloat.fin 0], none⟩ [] [EFloat.fin 0] = none :=
  ⟨(ln_fcs_nan_guard ⟨[EFloat.inf], none⟩
      [({ weight := [[EFloat.inf]], bias := none } : LinearF)] [EFloat.fin 1]).1
      (⟨[EFloat.inf], none⟩, [({ weight := [[EFloat.inf]], bias := none } : LinearF)])
      (by decide),
    (ln_fcs_nan_guard ⟨[EFloat.fin 0], none⟩ [] [EFloat.fin 0]).2.2 0
      (by decide) (by decide)⟩

/-- C3 counterexample: `scale_ln_fcs` applied with a scale vector containing
a zero over a nonzero normalization weight *succeeds* (the `torch.isnan`
asserts pass) while leaving a non-finite value (`inf = 1/0`) in the touched
weight — the operation neither keeps the non-finite count at zero nor fails
fatally, contradicting the claim. -/
theorem scale_ln_fcs_nonfinite_counterexample :
    scale_ln_fcs_f ⟨[EFloat.fin 1], none⟩
        [({ weight := [[EFloat.fin 1]], bias := none } : LinearF)] [EFloat.fin 0]
      = some (⟨[EFloat.inf], none⟩,
          [({ weight := [[EFloat.fin 0]], bias := none } : LinearF)])
    ∧ countNonFinite [EFloat.inf] ≠ 0 := by
  constructor
  · norm_num [scale_ln_fcs_f, lnNoNaN, fcNoNaN, tensorNoNaN, optNoNaN,
      EFloat.div, EFloat.mul, EFloat.isNaN]
  · norm_num [countNonFinite, EFloat.isFinite]

/-- C4: in the fused-QKV branch of `scale_fc_fc`
(`fc1.out_features == 3 * fc2.in_features`), with one attention head the
division by `s` touches exactly the V third of the packed output: for
`c < 3d`, channel `c` is divided by `s (c - 2d)` when `2d ≤ c` (weight and
bias) and left unchanged when `c < 2d`; concretely, for the 12-row weight
feeding a 4-wide following layer, the literal reshape implementation leaves
rows 0-7 (the Q and K thirds) unchanged and divides only rows 8-11, and it
agrees with the index-level model. -/
theorem scale_fc_fc_qkv_only_v (d : ℕ) (hd : 0 < d) (W : ℕ → ℕ → ℚ)
    (b s : ℕ → ℚ) (c r : ℕ) (hc : c < 3 * d) :
    (2 * d ≤ c →
        scale_fc_fc_qkv_ix d 1 W s c r = W c r / s (c - 2 * d)
        ∧ scale_fc_fc_qkv_bias_ix d 1 b s c = b c / s (c - 2 * d))
    ∧ (c < 2 * d →
        scale_fc_fc_qkv_ix d 1 W s c r = W c r
        ∧ scale_fc_fc_qkv_bias_ix d 1 b s c = b c)
    ∧ (scale_fc_fc_qkv_w 4 1 Wqkv sQkv).take 8 = Wqkv.take 8
    ∧ (scale_fc_fc_qkv_w 4 1 Wqkv sQkv).drop 8
        = [[80 / 2, 81 / 2], [90 / 3, 91 / 3], [100 / 5, 101 / 5],
           [110 / 7, 111 / 7]]
    ∧ listsOfFun (scale_fc_fc_qkv_ix 4 1 WqkvFun sQkvFun) 12 2
        = scale_fc_fc_qkv_w 4 1 Wqkv sQkv := by
  have hmod : c % (3 * (d / 1)) = c := by
    rw [Nat.div_one]
    exact Nat.mod_eq_of_lt hc
  have hdiv0 : c / (3 * (d / 1)) = 0 := by
    rw [Nat.div_one]
    exact Nat.div_eq_of_lt hc
  refine ⟨?_, ?_, by rfl, by rfl, by rfl⟩
  · intro h2
    have hslot : qkvSlot d 1 c = 2 := by
      rw [qkvSlot, hmod, Nat.div_one]
      exact Nat.div_eq_of_lt_le h2 (by omega)
    have hidx : qkvScaleIdx d 1 c = c - 2 * d := by
      rw [qkvScaleIdx, hmod, hdiv0, Nat.div_one, Nat.zero_mul, Nat.zero_add]
      have h3 : c - 2 * d < d := by omega
      calc c % d = ((c - 2 * d) + 2 * d) % d := by congr 1; omega
        _ = (c - 2 * d) % d := Nat.add_mul_mod_self_right _ 2 d
        _ = c - 2 * d := Nat.mod_eq_of_lt h3
    constructor
    · rw [scale_fc_fc_qkv_ix, if_pos hslot, hidx]
    · rw [scale_fc_fc_qkv_bias_ix, if_pos hslot, hidx]
  · intro h2
    have hslot : qkvSlot d 1 c ≠ 2 := by
      rw [qkvSlot, hmod, Nat.div_one]
      have : c / d < 2 := (Nat.div_lt_iff_lt_mul hd).mpr (by omega)
      omega
    constructor
    · rw [scale_fc_fc_qkv_ix, if_neg hslot]
    · rw [scale_fc_fc_qkv_bias_ix, if_neg hslot]

/-- Witness for `scale_fc_fc_qkv_only_v` at `d = 4`, channels 8 (V third,
rescaled) and 3 (Q third, untouched). -/
theorem scale_fc_fc_qkv_only_v_witness :
    (0 < 4 ∧ 8 < 3 * 4 ∧ 2 * 4 ≤ 8 ∧ (3 : ℕ) < 2 * 4)
    ∧ scale_fc_fc_qkv_ix 4 1 WqkvFun sQkvFun 8 0
        = WqkvFun 8 0 / sQkvFun (8 - 2 * 4)
    ∧ scale_fc_fc_qkv_ix 4 1 WqkvFun sQkvFun 3 0 = WqkvFun 3 0 :=
  ⟨⟨by decide, by decide, by decide, by decide⟩,
    ((scale_fc_fc_qkv_only_v 4 (by decide) WqkvFun (fun _ => 0) sQkvFun 8 0
        (by decide)).1 (by decide)).1,
    ((scale_fc_fc_qkv_only_v 4 (by decide) WqkvFun (fun _ => 0) sQkvFun 3 0
        (by decide)).2.1 (by decide)).1⟩

/-- C6: in the `auto_clip_layer` grid search, for every element the
recorded minimum error is non-increasing as successive shrink levels are
evaluated, and the running best bounds are replaced exactly when the new
error is strictly below the best seen so far (`err_mean < min_errs`) — in
particular a tie keeps the earlier (less-shrunk) bound. -/
theorem auto_clip_update (clipSym : Bool) (orgMax orgMin : ℚ) (nGrid : ℕ)
    (errAt : ℕ → ℚ) (k : ℕ) :
    (autoClipSearch clipSym orgMax orgMin nGrid errAt (k + 1)).minErr
        ≤ (autoClipSearch clipSym orgMax orgMin nGrid errAt k).minErr
    ∧ (autoClipSearch clipSym orgMax orgMin nGrid errAt (k + 1)).bestMax
        = (if errAt k < (autoClipSearch clipSym orgMax orgMin nGrid errAt k).minErr
            then maxValAt orgMax nGrid k
            else (autoClipSearch clipSym orgMax orgMin nGrid errAt k).bestMax)
    ∧ (autoClipSearch clipSym orgMax orgMin nGrid errAt (k + 1)).bestMin
        = (if errAt k < (autoClipSearch clipSym orgMax orgMin nGrid errAt k).minErr
            then minValAt clipSym orgMax orgMin nGrid k
            else (autoClipSearch clipSym orgMax orgMin nGrid errAt k).bestMin)
    ∧ (errAt k = (autoClipSearch clipSym orgMax orgMin nGrid errAt k).minErr →
        autoClipSearch clipSym orgMax orgMin nGrid errAt (k + 1)
          = autoClipSearch clipSym orgMax orgMin nGrid errAt k) := by
  have hstep : autoClipSearch clipSym orgMax orgMin nGrid errAt (k + 1)
      = clipGridStep clipSym orgMax orgMin nGrid errAt
          (autoClipSearch clipSym orgMax orgMin nGrid errAt k) k := by
    rw [autoClipSearch, autoClipSearch, List.range_succ, List.foldl_append,
      List.foldl_cons, List.foldl_nil]
  rw [hstep]
  set st := autoClipSearch clipSym orgMax orgMin nGrid errAt k with hst
  by_cases h : errAt k < st.minErr
  · refine ⟨?_, ?_, ?_, ?_⟩
    · rw [clipGridStep, if_pos h]
      exact le_of_lt h
    · rw [clipGridStep, if_pos h, if_pos h]
    · rw [clipGridStep, if_pos h, if_pos h]
    · intro he
      exact absurd h (by rw [he]; exact lt_irrefl _)
  · refine ⟨?_, ?_, ?_, ?_⟩
    · rw [clipGridStep, if_neg h]
    · rw [clipGridStep, if_neg h, if_neg h]
    · rw [clipGridStep, if_neg h, if_neg h]
    · intro _
      rw [clipGridStep, if_neg h]

/-- Witness for `auto_clip_update`: a tied error at the very first level
(`err = 1e9 = min_errs` init) leaves the state unchanged. -/
theorem auto_clip_update_witness :
    autoClipSearch false 1 0 20 (fun _ => 10 ^ 9) 1
      = autoClipSearch false 1 0 20 (fun _ => 10 ^ 9) 0 :=
  (auto_clip_update false 1 0 20 (fun _ => 10 ^ 9) 0).2.2.2 rfl

/-- Batches `[i*bs, …, i*bs + bs - 1]` for `i = 0, …, q-1` concatenate to
`[0, …, q*bs - 1]`. -/
theorem join_batches (q bs : ℕ) :
    ((List.range q).map fun i => List.range' (i * bs) bs).flatten
      = List.range (q * bs) := by
  induction q with
  | zero => simp
  | succ p ih =>
      rw [List.range_succ, List.map_append, List.flatten_append, ih]
      simp only [List.map_cons, List.map_nil, List.flatten_cons, List.flatten_nil,
        List.append_nil]
      rw [List.range_eq_range', List.range_eq_range']
      have := List.range'_append 0 (p * bs) bs 1
      simp only [one_mul, Nat.zero_add] at this
      rw [this]
      congr 1
      ring

/-- C7 (amended): `auto_clip_layer` batches output channels with batch size
256 when the output-channel count is divisible by 256 and 64 otherwise;
when the chosen batch size divides the channel count the batches cover
exactly all output channels, and otherwise the function *fails* on
`assert w.shape[0] % oc_batch_size == 0` instead of covering them (see the
counterexample at 100 channels). -/
theorem auto_clip_batches_cover (n : ℕ) :
    (∀ bl, autoClipBatches n = some bl →
        bl.flatten = List.range n ∧ ∀ b ∈ bl, b.length = ocBatchSize n)
    ∧ ((autoClipBatches n).isSome ↔ n % ocBatchSize n = 0)
    ∧ ocBatchSize n = (if n % 256 = 0 then 256 else 64) := by
  refine ⟨?_, ?_, rfl⟩
  · intro bl hbl
    rw [autoClipBatches] at hbl
    by_cases h : n % ocBatchSize n = 0
    · rw [if_pos h] at hbl
      obtain rfl := (Option.some.inj hbl).symm
      constructor
      · rw [join_batches, Nat.div_mul_cancel (Nat.dvd_of_mod_eq_zero h)]
      · intro b hb
        obtain ⟨i, _, rfl⟩ := List.mem_map.mp hb
        exact List.length_range' _ _ _
    · rw [if_neg h] at hbl
      exact absurd hbl (by simp)
  · rw [autoClipBatches]
    by_cases h : n % ocBatchSize n = 0
    · simp [h]
    · simp [h]

/-- Witness for `auto_clip_batches_cover` at 64 output channels (one batch
of 64). -/
theorem auto_clip_batches_cover_witness :
    (List.range' 0 64 :: []).flatten = List.range 64
    ∧ ∀ b ∈ List.range' 0 64 :: [], b.length = ocBatchSize 64 :=
  (auto_clip_batches_cover 64).1 (List.range' 0 64 :: []) (by rfl)

/-- C7 counterexample: a 100-row weight is divisible by neither 256 nor 64,
so `auto_clip_layer` raises `AssertionError` (modelled `none`) — the
output channels are *not* processed in covering batches, contradicting the
claim's "for every 2-D weight matrix". -/
theorem auto_clip_batches_counterexample :
    autoClipBatches 100 = none ∧ ocBatchSize 100 = 64 ∧ 100 % 64 ≠ 0 := by
  refine ⟨by decide, by decide, by decide⟩

/-- C8: a bare `name` selector assigns its setting index to that layer name
in every block (`k < num_blocks`); `name#i-j-k` assigns it only to the
listed blocks — concretely, `block.0.mlp.fc1#0-2` with 3 blocks overrides
blocks 0 and 2 while block 1 keeps no entry (default-quantizer fallback);
and a later setting overwrites an earlier assignment for the same
`(block, layer)` key. -/
theorem alloc_bits_selectors (numBlocks k : ℕ) (hk : k < numBlocks) :
    mixLookup (alloc_bits_map numBlocks [["fc"]]) k "fc" = some (some 0)
    ∧ (mixLookup (alloc_bits_map 3 [["block.0.mlp.fc1#0-2"]]) 0
          "block.0.mlp.fc1" = some (some 0)
      ∧ mixLookup (alloc_bits_map 3 [["block.0.mlp.fc1#0-2"]]) 1
          "block.0.mlp.fc1" = some none
      ∧ mixLookup (alloc_bits_map 3 [["block.0.mlp.fc1#0-2"]]) 2
          "block.0.mlp.fc1" = some (some 0))
    ∧ (mixLookup (alloc_bits_map 2 [["fc"], ["fc#1"]]) 0 "fc" = some (some 0)
      ∧ mixLookup (alloc_bits_map 2 [["fc"], ["fc#1"]]) 1 "fc" = some (some 1)) := by
  refine ⟨?_, ⟨by decide, by decide, by decide⟩, by decide, by decide⟩
  show some (if "fc".data = "fc".data ∧ k < numBlocks then some 0 else none)
      = some (some 0)
  rw [if_pos ⟨rfl, hk⟩]

/-- Witness for `alloc_bits_selectors` with one block. -/
theorem alloc_bits_selectors_witness :
    (0 : ℕ) < 1 ∧ mixLookup (alloc_bits_map 1 [["fc"]]) 0 "fc" = some (some 0) :=
  ⟨by decide, (alloc_bits_selectors 1 0 (by decide)).1⟩

/-- C9 (amended): a malformed mixed-bit selector and a `v2` clip without
the learnable calibration algorithm are fatal inside `set_quant_config`
(run from `__init__`, before any block); but an *unrecognized clip version*
passes configuration validation untouched and only raises
(`Exception('Not support other clip version')`) when `apply_clip` /
`auto_clip_layer` runs while a block is being processed. -/
theorem config_validation (numBlocks : ℕ) (cfg : QuantConfigModel) :
    (cfg.mixBitsSettings = some [["a#1#2"]] →
        set_quant_config_check numBlocks cfg = none)
    ∧ (cfg.clipVersion = "v2" → cfg.calibAlgo ≠ "learnable" →
        set_quant_config_check numBlocks cfg = none)
    ∧ (cfg.mixBitsSettings = none → cfg.clipVersion ≠ "v2" →
        set_quant_config_check numBlocks cfg = some ())
    ∧ (∀ v, v ≠ "v1" → v ≠ "v2" → apply_clip_version_check v = none) := by
  refine ⟨?_, ?_, ?_, ?_⟩
  · intro h
    rw [set_quant_config_check, h]
    rfl
  · intro h1 h2
    rw [set_quant_config_check]
    have hnone : (fun _ : Unit =>
        if cfg.clipVersion = "v2" then
          (if cfg.calibAlgo = "learnable" then some () else none)
        else some ()) = fun _ => (none : Option Unit) := by
      funext u
      rw [if_pos h1, if_neg h2]
    rw [hnone]
    cases hm : cfg.mixBitsSettings with
    | none => rfl
    | some settings =>
        cases halloc : alloc_bits_map numBlocks settings with
        | none =>
            show ((alloc_bits_map numBlocks settings).map fun _ => ()).bind
                (fun _ => (none : Option Unit)) = none
            rw [halloc]
            rfl
        | some m =>
            show ((alloc_bits_map numBlocks settings).map fun _ => ()).bind
                (fun _ => (none : Option Unit)) = none
            rw [halloc]
            rfl
  · intro h1 h2
    rw [set_quant_config_check, h1]
    show (if cfg.clipVersion = "v2" then
        (if cfg.calibAlgo = "learnable" then some () else none)
      else some ()) = some ()
    rw [if_neg h2]
  · intro v h1 h2
    rw [apply_clip_version_check, if_neg h1, if_neg h2]

/-- Witness for `config_validation`: the three config-time outcomes and the
block-time rejection at concrete configurations. -/
theorem config_validation_witness :
    set_quant_config_check 2 ⟨some [["a#1#2"]], "v1", "minmax"⟩ = none
    ∧ set_quant_config_check 2 ⟨none, "v2", "minmax"⟩ = none
    ∧ set_quant_config_check 2 ⟨none, "v3", "minmax"⟩ = some ()
    ∧ apply_clip_version_check "v0" = none :=
  ⟨(config_validation 2 ⟨some [["a#1#2"]], "v1", "minmax"⟩).1 rfl,
   (config_validation 2 ⟨none, "v2", "minmax"⟩).2.1 rfl (by decide),
   (config_validation 2 ⟨none, "v3", "minmax"⟩).2.2.1 rfl (by decide),
   (config_validation 2 ⟨none, "v3", "minmax"⟩).2.2.2 "v0" (by decide) (by decide)⟩

/-- C9 counterexample: the unrecognized clip version `"v3"` passes
`set_quant_config` (config-validation time) without any error — it is
rejected only by `apply_clip`'s dispatch, which runs while a block is
processed — contradicting "fatal … at configuration-validation time,
before any block is processed". -/
theorem clip_version_config_counterexample :
    set_quant_config_check 2 ⟨none, "v3", "minmax"⟩ = some ()
    ∧ apply_clip_version_check "v3" = none :=
  ⟨by decide, by decide⟩

/-- C10 (amended): the fan-out bias fold `bias += weight · t` of
`shift_fc_fc` / `shift_ln_fcs` is executed in the promoted dtype of
`weight` and `t` — the *working* precision when both carry it, with no
double-precision upcast anywhere (the result keeps the bias dtype
trivially, since nothing was upcast). -/
theorem shift_bias_fold_working_dtype (useShift hasBias : Bool)
    (lnb : Option DVec) (fc : DLinear) (fcs : List DLinear) (shifts : DVec)
    (w : DType) (hw : fc.weight.dtype = w) (hs : shifts.dtype = w) :
    (dmatvec fc.weight shifts).dtype = w
    ∧ (∀ b, fc.bias = some b →
        (shift_bias_fold useShift fc shifts).bias
          = some (dadd_ b (dmatvec fc.weight shifts))
        ∧ (dadd_ b (dmatvec fc.weight shifts)).dtype = b.dtype)
    ∧ (fc.bias = none → useShift = true →
        (shift_bias_fold useShift fc shifts).bias
          = some (dmatvec fc.weight shifts))
    ∧ (shift_fc_fc_d useShift fc fc shifts).2 = shift_bias_fold useShift fc shifts
    ∧ (shift_ln_fcs_d hasBias useShift lnb (fc :: fcs) shifts).2
        = (fc :: fcs).map fun fc2 => shift_bias_fold useShift fc2 shifts := by
  refine ⟨?_, ?_, ?_, rfl, rfl⟩
  · show fc.weight.dtype.promote shifts.dtype = w
    rw [hw, hs, DType.promote, if_pos le_rfl]
  · intro b hb
    rw [shift_bias_fold, hb]
    exact ⟨rfl, rfl⟩
  · intro hb hu
    rw [shift_bias_fold, hb, hu]
    rfl

/-- Witness for `shift_bias_fold_working_dtype` at `float16` layers. -/
theorem shift_bias_fold_working_dtype_witness :
    ((⟨⟨DType.f16, [[1]]⟩, some ⟨DType.f16, [0]⟩⟩ : DLinear).weight.dtype
        = DType.f16
      ∧ (⟨DType.f16, [1]⟩ : DVec).dtype = DType.f16)
    ∧ (dmatvec (⟨DType.f16, [[1]]⟩ : DMat) ⟨DType.f16, [1]⟩).dtype = DType.f16 :=
  ⟨⟨rfl, rfl⟩,
    (shift_bias_fold_working_dtype false false none
      ⟨⟨DType.f16, [[1]]⟩, some ⟨DType.f16, [0]⟩⟩ [] ⟨DType.f16, [1]⟩
      DType.f16 rfl rfl).1⟩

/-- C10 counterexample: with a `float16` working precision, the bias fold's
matmul `fc2.weight @ shifts` runs in `float16` (torch promotion of two
`float16` operands), which is *not* at least double precision — the source
lines 417/433 contain no upcast, unlike `fuse_ln_fcs` (line 765) and the
rotation functions (lines 730, 737), which do cast to `float64`. -/
theorem shift_bias_fold_no_upcast_counterexample :
    (dmatvec (⟨DType.f16, [[1]]⟩ : DMat) ⟨DType.f16, [1]⟩).dtype = DType.f16
    ∧ ¬ DType.le DType.f64
        (dmatvec (⟨DType.f16, [[1]]⟩ : DMat) ⟨DType.f16, [1]⟩).dtype
    ∧ ((shift_fc_fc_d false (⟨⟨DType.f16, [[1]]⟩, none⟩ : DLinear)
          (⟨⟨DType.f16, [[1]]⟩, some ⟨DType.f16, [0]⟩⟩ : DLinear)
          ⟨DType.f16, [1]⟩).2.bias.map DVec.dtype) = some DType.f16 := by
  refine ⟨rfl, by decide, rfl⟩

end LLMC
